import Mathlib

/-!
Shallow embedding of `benchmark_function/benchmark_function.py`
(repository `yshimizu12/RealCodedGeneticAlgorithm`).

An input value is modelled as a `PyArray`: the shape of its numpy
representation together with the flat (row-major) data.  The benchmark
methods of class `BenchmarkFunction` all first run `check`, which raises
an exception unless the array has exactly two axes; exceptions are
modelled with `Except PyError`.  The vectorized numpy expressions are
translated op by op: elementwise maps (`nmap`), same-shape elementwise
binary operations (`nzip`), column slicing (`sliceTo`, `sliceFrom`,
`sliceDropLast` for `[:, :k]`, `[:, k:]`, `[:, :-1]`), broadcasting of a
1-D coefficient vector over rows (`nbcastRow`), broadcasting of an
`(n,1)` column over an `(n,k)` block (`nbcastCol`), and `.sum(axis=1)`
(`sumAxis`).  Real scalar arithmetic is over `ℝ`, with numpy float
powers `** 0.5` etc. as `Real.rpow`, `np.cos`/`np.sin`/`np.exp` as
`Real.cos`/`Real.sin`/`Real.exp`, `np.pi` as `Real.pi` and `np.e` as
`Real.exp 1`.  The two metadata dictionaries are modelled as association
lists over `ℚ` (their entries are decimal literals).
-/

/-- Errors a call into the library can raise.  `shapeError` models the bare
`Exception` raised by `check`; `zeroDivisionError` models Python's
`ZeroDivisionError` (reachable in `ellipsoid` via `i/(dim-1)` when `dim = 1`). -/
inductive PyError where
  | shapeError (msg : String)
  | zeroDivisionError (msg : String)
deriving DecidableEq

/-- A numpy array value: the shape of `np.array(x)` plus the flat data. -/
structure PyArray (α : Type) where
  shape : List Nat
  data : List α

/-- The message of the exception raised by `check` (source line 14). -/
def shapeErrorMsg : String :=
  "Only 2D array is expected. Reshape your data either using X.reshape(-1, 1) if your data has a single feature or X.reshape(1, -1) if it contains a single sample."

/-- `check(x)` from the source: `np.array(x)` must have exactly 2 axes,
otherwise an exception is raised; the array is returned unchanged. -/
def check (x : PyArray α) : Except PyError (PyArray α) :=
  if x.shape.length = 2 then .ok x else .error (.shapeError shapeErrorMsg)

/-- `x.shape[0]` of a rank-2 array (number of samples `n`). -/
def nRows (x : PyArray α) : Nat := x.shape.getD 0 0

/-- `x.shape[1]` of a rank-2 array (input size `m`, `dim` in the source). -/
def nCols (x : PyArray α) : Nat := x.shape.getD 1 0

/-- Split flat row-major data into `n` rows of `m` entries each
(the row decomposition of a rank-2 numpy array). -/
def chunk (m : Nat) : Nat → List α → List (List α)
  | 0, _ => []
  | n + 1, l => l.take m :: chunk m n (l.drop m)

/-- The list of rows of a rank-2 `PyArray`. -/
def rows (x : PyArray α) : List (List α) := chunk (nCols x) (nRows x) x.data

/-- Elementwise unary numpy operation on a 2-D array. -/
def nmap (f : α → β) (x : List (List α)) : List (List β) :=
  x.map (List.map f)

/-- Elementwise binary numpy operation on two same-shape 2-D arrays. -/
def nzip (f : α → β → γ) (x : List (List α)) (y : List (List β)) :
    List (List γ) :=
  List.zipWith (List.zipWith f) x y

/-- Binary numpy operation broadcasting a 1-D vector (shape `(m,)`) across
every row of an `(n, m)` array, as in `input_array * coef`. -/
def nbcastRow (f : α → β → γ) (x : List (List α)) (v : List β) :
    List (List γ) :=
  x.map (fun r => List.zipWith f r v)

/-- Binary numpy operation between an `(n, 1)` column and an `(n, k)` block:
the single entry of each row of the first operand is broadcast across the
corresponding row of the second (numpy column broadcasting); rows that are
not singletons fall back to the same-shape elementwise rule (this only
happens for `(n, 0)` against `(n, 0)`). -/
def nbcastCol (f : α → β → γ) (x : List (List α)) (y : List (List β)) :
    List (List γ) :=
  List.zipWith
    (fun ra rb =>
      match ra with
      | [a] => rb.map (f a)
      | _ => List.zipWith f ra rb)
    x y

/-- `input_array[:, :k]`. -/
def sliceTo (k : Nat) (x : List (List α)) : List (List α) :=
  x.map (List.take k)

/-- `input_array[:, k:]`. -/
def sliceFrom (k : Nat) (x : List (List α)) : List (List α) :=
  x.map (List.drop k)

/-- `input_array[:, :-1]`. -/
def sliceDropLast (x : List (List α)) : List (List α) :=
  x.map List.dropLast

/-- `.sum(axis=1)` (identical to `.sum(axis=-1)` on a 2-D array): one scalar
per row; the sum of an empty row is `0`. -/
def sumAxis [Add α] [Zero α] (x : List (List α)) : List α :=
  x.map List.sum

/-- `sphere`: `(input_array**2).sum(axis=-1)`. -/
noncomputable def sphere (input_array : PyArray ℝ) :
    Except PyError (List ℝ) := do
  let x ← check input_array
  pure (sumAxis (nmap (· ^ 2) (rows x)))

/-- Python true division: raises `ZeroDivisionError` on a zero denominator. -/
noncomputable def pydiv (a b : ℝ) : Except PyError ℝ :=
  if b = 0 then .error (.zeroDivisionError "division by zero")
  else .ok (a / b)

/-- A Python list comprehension over `Except`: elements are produced left to
right and the first exception propagates. -/
def mapME (g : α → Except ε β) : List α → Except ε (List β)
  | [] => .ok []
  | a :: as => do
    let b ← g a
    let bs ← mapME g as
    pure (b :: bs)

/-- The coefficient vector of `ellipsoid`:
`[1000**(i/(dim-1)) for i in range(dim)]` (float power and float division;
`dim = 1` raises `ZeroDivisionError`). -/
noncomputable def ellipsoidCoef (dim : Nat) : Except PyError (List ℝ) :=
  mapME
    (fun i : Nat => (pydiv (i : ℝ) ((dim : ℝ) - 1)).map
      (fun e => (1000 : ℝ) ^ e))
    (List.range dim)

/-- `ellipsoid`: `((input_array*coef)**2).sum(axis=1)` with the coefficient
vector broadcast across rows. -/
noncomputable def ellipsoid (input_array : PyArray ℝ) :
    Except PyError (List ℝ) := do
  let x ← check input_array
  let coef ← ellipsoidCoef (nCols x)
  pure (sumAxis (nmap (· ^ 2) (nbcastRow (· * ·) (rows x) coef)))

/-- `k_tablet`: `k = math.ceil(dim/4)`, then
`(input_array[:,:k]**2).sum(axis=1) + ((100*input_array[:,k:])**2).sum(axis=1)`
(the two length-`n` vectors are added elementwise). -/
noncomputable def k_tablet (input_array : PyArray ℝ) :
    Except PyError (List ℝ) := do
  let x ← check input_array
  let dim := nCols x
  let k := ⌈(dim : ℚ) / 4⌉₊
  pure (List.zipWith (· + ·)
    (sumAxis (nmap (· ^ 2) (sliceTo k (rows x))))
    (sumAxis (nmap (· ^ 2) (nmap ((100 : ℝ) * ·) (sliceFrom k (rows x))))))

/-- `rosenbrock_star`:
`(100*(input_array[:,:1]-input_array[:,1:]**2)**2 + (1-input_array[:,1:])**2).sum(axis=1)`,
the `(n,1)` first column broadcast across the `(n,m-1)` rest. -/
noncomputable def rosenbrock_star (input_array : PyArray ℝ) :
    Except PyError (List ℝ) := do
  let x ← check input_array
  pure (sumAxis (nbcastCol
    (fun x1 xi => 100 * (x1 - xi ^ 2) ^ 2 + (1 - xi) ^ 2)
    (sliceTo 1 (rows x)) (sliceFrom 1 (rows x))))

/-- `rosenbrock_chain`:
`(100*(input_array[:,1:]-input_array[:,:-1]**2)**2 + (1-input_array[:,:-1])**2).sum(axis=1)`. -/
noncomputable def rosenbrock_chain (input_array : PyArray ℝ) :
    Except PyError (List ℝ) := do
  let x ← check input_array
  pure (sumAxis (nzip
    (fun xn xp => 100 * (xn - xp ^ 2) ^ 2 + (1 - xp) ^ 2)
    (sliceFrom 1 (rows x)) (sliceDropLast (rows x))))

/-- `bohachevsky`:
`(input_array[:,:-1]**2 + 2*input_array[:,1:]**2 - 0.3*np.cos(3*np.pi*input_array[:,:-1]) - 0.4*np.cos(4*np.pi*input_array[:,1:]) + 0.7).sum(axis=1)`. -/
noncomputable def bohachevsky (input_array : PyArray ℝ) :
    Except PyError (List ℝ) := do
  let x ← check input_array
  pure (sumAxis (nzip
    (fun a b => a ^ 2 + 2 * b ^ 2 - 0.3 * Real.cos (3 * Real.pi * a)
      - 0.4 * Real.cos (4 * Real.pi * b) + 0.7)
    (sliceDropLast (rows x)) (sliceFrom 1 (rows x))))

/-- `ackley`:
`20 - 20*np.exp(-0.2*((input_array**2).sum(axis=1)/dim)**0.5) + np.e - np.exp((np.cos(2*np.pi*input_array)).sum(axis=1)/dim)`. -/
noncomputable def ackley (input_array : PyArray ℝ) :
    Except PyError (List ℝ) := do
  let x ← check input_array
  let dim := nCols x
  pure (List.zipWith
    (fun s c => 20 - 20 * Real.exp (-0.2 * (s / (dim : ℝ)) ^ (0.5 : ℝ))
      + Real.exp 1 - Real.exp (c / (dim : ℝ)))
    (sumAxis (nmap (· ^ 2) (rows x)))
    (sumAxis (nmap (fun v => Real.cos (2 * Real.pi * v)) (rows x))))

/-- `schaffer`:
`((input_array[:,:-1]**2+input_array[:,1:]**2)**0.25 * (np.sin(50*(input_array[:,:-1]**2+input_array[:,1:]**2)**0.1)**2 + 1.0)).sum(axis=1)`. -/
noncomputable def schaffer (input_array : PyArray ℝ) :
    Except PyError (List ℝ) := do
  let x ← check input_array
  pure (sumAxis (nzip
    (fun a b => (a ^ 2 + b ^ 2) ^ (0.25 : ℝ)
      * (Real.sin (50 * (a ^ 2 + b ^ 2) ^ (0.1 : ℝ)) ^ 2 + 1.0))
    (sliceDropLast (rows x)) (sliceFrom 1 (rows x))))

/-- `rastrigin`:
`10*dim + ((input_array-1)**2 - 10*np.cos(2*np.pi*(input_array-1))).sum(axis=1)`
(the scalar `10*dim` is broadcast over the length-`n` sum vector). -/
noncomputable def rastrigin (input_array : PyArray ℝ) :
    Except PyError (List ℝ) := do
  let x ← check input_array
  let dim := nCols x
  pure ((sumAxis (nmap
    (fun v => (v - 1) ^ 2 - 10 * Real.cos (2 * Real.pi * (v - 1)))
    (rows x))).map (fun s => 10 * (dim : ℝ) + s))

/-- Lookup in a Python dict modelled as an association list. -/
def dictGet (key : String) : List (String × α) → Option α
  | [] => none
  | (k, v) :: rest => if key = k then some v else dictGet key rest

/-- `search_area`: the dict literal of source lines 155-165. -/
def search_area : List (String × List ℚ) :=
  [("sphere", [-5.12, 5.12]),
   ("ellipsoid", [-5.12, 5.12]),
   ("k_tablet", [-5.12, 5.12]),
   ("rosenbrock_star", [-2.048, 2.048]),
   ("rosenbrock_chain", [-2.048, 2.048]),
   ("bohachevsky", [-5.12, 5.12]),
   ("ackley", [-32.768, 32.768]),
   ("schaffer", [-100, 100]),
   ("rastrigin", [-5.12, 5.12])]

/-- `optimal_solution(dimension)`: `zeros = [0]*dimension`,
`ones = [1]*dimension`, then the dict literal of source lines 172-182. -/
def optimal_solution (dimension : Nat) : List (String × List ℚ) :=
  let zeros := List.replicate dimension (0 : ℚ)
  let ones := List.replicate dimension (1 : ℚ)
  [("sphere", zeros),
   ("ellipsoid", zeros),
   ("k_tablet", zeros),
   ("rosenbrock_star", ones),
   ("rosenbrock_chain", ones),
   ("bohachevsky", zeros),
   ("ackley", zeros),
   ("schaffer", zeros),
   ("rastrigin", ones)]

/-! ### Helper lemmas about the embedding -/

theorem check_rank2 (n m : Nat) (d : List α) :
    check ⟨[n, m], d⟩ = .ok ⟨[n, m], d⟩ := rfl

theorem rows_mk (n m : Nat) (d : List α) :
    rows ⟨[n, m], d⟩ = chunk m n d := rfl

theorem chunk_length (m n : Nat) (d : List α) :
    (chunk m n d).length = n := by
  induction n generalizing d with
  | zero => rfl
  | succ k ih => simp [chunk, ih]

theorem length_of_mem_chunk {m n : Nat} {d : List α} {r : List α}
    (hd : d.length = n * m) (hr : r ∈ chunk m n d) : r.length = m := by
  induction n generalizing d with
  | zero => simp [chunk] at hr
  | succ k ih =>
    simp only [chunk, List.mem_cons] at hr
    rcases hr with h | h
    · subst h
      rw [List.length_take]
      have hm : m ≤ d.length := by
        rw [hd, add_one_mul]
        omega
      omega
    · refine ih ?_ h
      rw [List.length_drop, hd, add_one_mul]
      omega

theorem chunk_append (m n₁ n₂ : Nat) (d₁ d₂ : List α)
    (hd : d₁.length = n₁ * m) :
    chunk m (n₁ + n₂) (d₁ ++ d₂) = chunk m n₁ d₁ ++ chunk m n₂ d₂ := by
  induction n₁ generalizing d₁ with
  | zero =>
    have h0 : d₁.length = 0 := by rw [hd]; omega
    have : d₁ = [] := List.length_eq_zero.mp h0
    subst this
    simp [chunk]
  | succ k ih =>
    have hm : m ≤ d₁.length := by
      rw [hd, add_one_mul]
      omega
    have h1 : (d₁ ++ d₂).take m = d₁.take m :=
      List.take_append_of_le_length hm
    have h2 : (d₁ ++ d₂).drop m = d₁.drop m ++ d₂ :=
      List.drop_append_of_le_length hm
    have hrec := ih (d₁.drop m)
      (by rw [List.length_drop, hd, add_one_mul]; omega)
    show chunk m (k + 1 + n₂) (d₁ ++ d₂) = _
    have : k + 1 + n₂ = (k + n₂) + 1 := by omega
    rw [this]
    simp only [chunk, h1, h2, hrec]
    rfl

theorem zipWith_map_same (f : β → γ → δ) (g : α → β) (h : α → γ)
    (l : List α) :
    List.zipWith f (l.map g) (l.map h) = l.map (fun x => f (g x) (h x)) := by
  induction l with
  | nil => rfl
  | cons a t ih => simp [ih]

theorem sum_map_getD (f : ℝ → ℝ) (l : List ℝ) :
    (l.map f).sum = ∑ i in Finset.range l.length, f (l.getD i 0) := by
  induction l with
  | nil => simp
  | cons a t ih =>
    simp only [List.map_cons, List.sum_cons, List.length_cons, ih,
      Finset.sum_range_succ']
    simp [List.getD_cons_succ, List.getD_cons_zero, add_comm]

theorem getD_take {k i : Nat} (l : List α) (d : α) (h : i < k) :
    (l.take k).getD i d = l.getD i d := by
  induction l generalizing k i with
  | nil => simp
  | cons a t ih =>
    cases k with
    | zero => omega
    | succ k2 =>
      cases i with
      | zero => simp
      | succ i2 =>
        simp only [List.take_succ_cons, List.getD_cons_succ]
        exact ih (by omega)

theorem getD_drop (k i : Nat) (l : List α) (d : α) :
    (l.drop k).getD i d = l.getD (k + i) d := by
  induction l generalizing k with
  | nil => simp
  | cons a t ih =>
    cases k with
    | zero => simp
    | succ k2 =>
      have h1 : k2 + 1 + i = (k2 + i) + 1 := by omega
      rw [List.drop_succ_cons, ih, h1, List.getD_cons_succ]

/-! ### Row forms of the nine benchmark functions

Each function, applied to a rank-2 array `⟨[n, m], d⟩`, maps an
independent scalar function over the `n` rows of the array. -/

theorem sphere_rows (n m : Nat) (d : List ℝ) :
    sphere ⟨[n, m], d⟩
      = .ok ((chunk m n d).map (fun r => (r.map (fun v => v ^ 2)).sum)) := by
  have h : sphere ⟨[n, m], d⟩
      = .ok (sumAxis (nmap (· ^ 2) (chunk m n d))) := rfl
  rw [h]
  simp [sumAxis, nmap, List.map_map, Function.comp]

theorem ellipsoid_rows (n m : Nat) (d : List ℝ) :
    ellipsoid ⟨[n, m], d⟩
      = (ellipsoidCoef m).map (fun coef => (chunk m n d).map
          (fun r => ((List.zipWith (· * ·) r coef).map (fun v => v ^ 2)).sum)) := by
  have h : ellipsoid ⟨[n, m], d⟩
      = (ellipsoidCoef m) >>= (fun coef =>
          pure (sumAxis (nmap (· ^ 2) (nbcastRow (· * ·) (chunk m n d) coef)))) := rfl
  rw [h]
  cases hc : ellipsoidCoef m with
  | error e => rfl
  | ok coef =>
    show Except.ok _ = Except.ok _
    simp [sumAxis, nmap, nbcastRow, List.map_map, Function.comp]

theorem k_tablet_rows (n m : Nat) (d : List ℝ) :
    k_tablet ⟨[n, m], d⟩
      = .ok ((chunk m n d).map (fun r =>
          ((r.take ⌈(m : ℚ) / 4⌉₊).map (fun v => v ^ 2)).sum
          + ((r.drop ⌈(m : ℚ) / 4⌉₊).map (fun v => (100 * v) ^ 2)).sum)) := by
  have h : k_tablet ⟨[n, m], d⟩
      = .ok (List.zipWith (· + ·)
          (sumAxis (nmap (· ^ 2) (sliceTo ⌈(m : ℚ) / 4⌉₊ (chunk m n d))))
          (sumAxis (nmap (· ^ 2) (nmap ((100 : ℝ) * ·)
            (sliceFrom ⌈(m : ℚ) / 4⌉₊ (chunk m n d)))))) := rfl
  rw [h]
  simp only [sumAxis, nmap, sliceTo, sliceFrom, List.map_map]
  rw [zipWith_map_same]
  refine congrArg Except.ok (List.map_congr_left (fun a _ => ?_))
  show ((a.take ⌈(m : ℚ) / 4⌉₊).map (fun x => x ^ 2)).sum
      + (((a.drop ⌈(m : ℚ) / 4⌉₊).map (fun x => (100 : ℝ) * x)).map
          (fun x => x ^ 2)).sum = _
  rw [List.map_map]
  rfl

theorem rosenbrock_star_rows (n m : Nat) (d : List ℝ) :
    rosenbrock_star ⟨[n, m], d⟩
      = .ok ((chunk m n d).map (fun r =>
          ((r.drop 1).map (fun xi =>
            100 * (r.headD 0 - xi ^ 2) ^ 2 + (1 - xi) ^ 2)).sum)) := by
  have h : rosenbrock_star ⟨[n, m], d⟩
      = .ok (sumAxis (nbcastCol
          (fun x1 xi => 100 * (x1 - xi ^ 2) ^ 2 + (1 - xi) ^ 2)
          (sliceTo 1 (chunk m n d)) (sliceFrom 1 (chunk m n d)))) := rfl
  rw [h]
  simp only [sumAxis, nbcastCol, sliceTo, sliceFrom]
  rw [zipWith_map_same]
  simp only [List.map_map]
  refine congrArg Except.ok (List.map_congr_left (fun r _ => ?_))
  cases r with
  | nil => rfl
  | cons a t => rfl

theorem rosenbrock_chain_rows (n m : Nat) (d : List ℝ) :
    rosenbrock_chain ⟨[n, m], d⟩
      = .ok ((chunk m n d).map (fun r =>
          (List.zipWith (fun xn xp => 100 * (xn - xp ^ 2) ^ 2 + (1 - xp) ^ 2)
            (r.drop 1) r.dropLast).sum)) := by
  have h : rosenbrock_chain ⟨[n, m], d⟩
      = .ok (sumAxis (nzip
          (fun xn xp => 100 * (xn - xp ^ 2) ^ 2 + (1 - xp) ^ 2)
          (sliceFrom 1 (chunk m n d)) (sliceDropLast (chunk m n d)))) := rfl
  rw [h]
  simp only [sumAxis, nzip, sliceFrom, sliceDropLast]
  rw [zipWith_map_same]
  simp [List.map_map, Function.comp]

theorem bohachevsky_rows (n m : Nat) (d : List ℝ) :
    bohachevsky ⟨[n, m], d⟩
      = .ok ((chunk m n d).map (fun r =>
          (List.zipWith (fun a b => a ^ 2 + 2 * b ^ 2
              - 0.3 * Real.cos (3 * Real.pi * a)
              - 0.4 * Real.cos (4 * Real.pi * b) + 0.7)
            r.dropLast (r.drop 1)).sum)) := by
  have h : bohachevsky ⟨[n, m], d⟩
      = .ok (sumAxis (nzip
          (fun a b => a ^ 2 + 2 * b ^ 2 - 0.3 * Real.cos (3 * Real.pi * a)
            - 0.4 * Real.cos (4 * Real.pi * b) + 0.7)
          (sliceDropLast (chunk m n d)) (sliceFrom 1 (chunk m n d)))) := rfl
  rw [h]
  simp only [sumAxis, nzip, sliceFrom, sliceDropLast]
  rw [zipWith_map_same]
  simp [List.map_map, Function.comp]

theorem ackley_rows (n m : Nat) (d : List ℝ) :
    ackley ⟨[n, m], d⟩
      = .ok ((chunk m n d).map (fun r =>
          20 - 20 * Real.exp (-0.2 * ((r.map (fun v => v ^ 2)).sum / (m : ℝ)) ^ (0.5 : ℝ))
          + Real.exp 1
          - Real.exp ((r.map (fun v => Real.cos (2 * Real.pi * v))).sum / (m : ℝ)))) := by
  have h : ackley ⟨[n, m], d⟩
      = .ok (List.zipWith
          (fun s c => 20 - 20 * Real.exp (-0.2 * (s / (m : ℝ)) ^ (0.5 : ℝ))
            + Real.exp 1 - Real.exp (c / (m : ℝ)))
          (sumAxis (nmap (· ^ 2) (chunk m n d)))
          (sumAxis (nmap (fun v => Real.cos (2 * Real.pi * v)) (chunk m n d)))) := rfl
  rw [h]
  simp only [sumAxis, nmap, List.map_map]
  rw [zipWith_map_same]
  simp [Function.comp]

theorem schaffer_rows (n m : Nat) (d : List ℝ) :
    schaffer ⟨[n, m], d⟩
      = .ok ((chunk m n d).map (fun r =>
          (List.zipWith (fun a b => (a ^ 2 + b ^ 2) ^ (0.25 : ℝ)
              * (Real.sin (50 * (a ^ 2 + b ^ 2) ^ (0.1 : ℝ)) ^ 2 + 1.0))
            r.dropLast (r.drop 1)).sum)) := by
  have h : schaffer ⟨[n, m], d⟩
      = .ok (sumAxis (nzip
          (fun a b => (a ^ 2 + b ^ 2) ^ (0.25 : ℝ)
            * (Real.sin (50 * (a ^ 2 + b ^ 2) ^ (0.1 : ℝ)) ^ 2 + 1.0))
          (sliceDropLast (chunk m n d)) (sliceFrom 1 (chunk m n d)))) := rfl
  rw [h]
  simp only [sumAxis, nzip, sliceFrom, sliceDropLast]
  rw [zipWith_map_same]
  simp [List.map_map, Function.comp]

theorem rastrigin_rows (n m : Nat) (d : List ℝ) :
    rastrigin ⟨[n, m], d⟩
      = .ok ((chunk m n d).map (fun r =>
          10 * (m : ℝ)
          + (r.map (fun v =>
              (v - 1) ^ 2 - 10 * Real.cos (2 * Real.pi * (v - 1)))).sum)) := by
  have h : rastrigin ⟨[n, m], d⟩
      = .ok ((sumAxis (nmap
          (fun v => (v - 1) ^ 2 - 10 * Real.cos (2 * Real.pi * (v - 1)))
          (chunk m n d))).map (fun s => 10 * (m : ℝ) + s)) := rfl
  rw [h]
  simp [sumAxis, nmap, List.map_map, Function.comp]

/-! ### More helpers -/

theorem bind_ok_eq (a : α) (f : α → Except ε β) :
    (Except.ok a >>= f : Except ε β) = f a := rfl

theorem bind_error_eq (e : ε) (f : α → Except ε β) :
    (Except.error e >>= f : Except ε β) = .error e := rfl

theorem headD_eq_getD (l : List α) (d : α) : l.headD d = l.getD 0 d := by
  cases l <;> rfl

theorem length_mem_chunk_le {m n : Nat} {d : List α} {r : List α}
    (hr : r ∈ chunk m n d) : r.length ≤ m := by
  induction n generalizing d with
  | zero => simp [chunk] at hr
  | succ k ih =>
    simp only [chunk, List.mem_cons] at hr
    rcases hr with h | h
    · subst h
      simp [List.length_take]
    · exact ih h

theorem mapME_error {g : α → Except ε β} {l : List α} {e : ε}
    (h : mapME g l = .error e) : ∃ a ∈ l, g a = .error e := by
  induction l with
  | nil => simp [mapME] at h
  | cons a t ih =>
    simp only [mapME] at h
    cases hg : g a with
    | error e2 =>
      rw [hg, bind_error_eq] at h
      refine ⟨a, List.mem_cons_self a t, ?_⟩
      rw [hg]
      exact congrArg Except.error (Except.error.inj h)
    | ok b =>
      rw [hg, bind_ok_eq] at h
      cases ht : mapME g t with
      | error e3 =>
        rw [ht, bind_error_eq] at h
        obtain ⟨a2, ha2, hga⟩ := ih (by rw [ht, Except.error.inj h])
        exact ⟨a2, List.mem_cons_of_mem a ha2, hga⟩
      | ok bs =>
        rw [ht, bind_ok_eq] at h
        exact absurd (show Except.ok (b :: bs) = Except.error e from h)
          (by simp)

theorem ellipsoidCoef_error {m : Nat} {e : PyError}
    (h : ellipsoidCoef m = .error e) :
    e = .zeroDivisionError "division by zero" := by
  obtain ⟨i, _, hi⟩ := mapME_error h
  by_cases hb : ((m : ℝ) - 1) = 0
  · rw [pydiv, if_pos hb] at hi
    simpa [Except.map] using (Except.error.inj hi).symm
  · rw [pydiv, if_neg hb] at hi
    simp [Except.map] at hi

theorem rows_fn_append {g : List ℝ → ℝ} {n₁ m : Nat} (n₂ : Nat)
    {d₁ : List ℝ} (d₂ : List ℝ) (hd : d₁.length = n₁ * m) :
    (chunk m (n₁ + n₂) (d₁ ++ d₂)).map g
      = (chunk m n₁ d₁).map g ++ (chunk m n₂ d₂).map g := by
  rw [chunk_append m n₁ n₂ d₁ d₂ hd, List.map_append]

/-! ### The claims -/

/-- C9: `search_area()` takes no input and always returns the same fixed
mapping from the nine function names to their `[low, high]` bounds
(`sphere`, `ellipsoid`, `k_tablet`, `bohachevsky`, `rastrigin` to
`[-5.12, 5.12]`; `rosenbrock_star`, `rosenbrock_chain` to
`[-2.048, 2.048]`; `ackley` to `[-32.768, 32.768]`; `schaffer` to
`[-100, 100]`); in particular the `ackley` entry is `[-32.768, 32.768]`.
`search_area` is a constant, so every call and call order yields this
same value. -/
theorem search_area_table :
    dictGet "sphere" search_area = some [-5.12, 5.12]
    ∧ dictGet "ellipsoid" search_area = some [-5.12, 5.12]
    ∧ dictGet "k_tablet" search_area = some [-5.12, 5.12]
    ∧ dictGet "rosenbrock_star" search_area = some [-2.048, 2.048]
    ∧ dictGet "rosenbrock_chain" search_area = some [-2.048, 2.048]
    ∧ dictGet "bohachevsky" search_area = some [-5.12, 5.12]
    ∧ dictGet "ackley" search_area = some [-32.768, 32.768]
    ∧ dictGet "schaffer" search_area = some [-100, 100]
    ∧ dictGet "rastrigin" search_area = some [-5.12, 5.12] :=
  ⟨rfl, rfl, rfl, rfl, rfl, rfl, rfl, rfl, rfl⟩

/-- C8: for every non-negative integer `d`, `optimal_solution(d)` maps all
nine function names: `sphere`, `ellipsoid`, `k_tablet`, `bohachevsky`,
`ackley`, `schaffer` to the all-zeros vector of length `d`, and
`rosenbrock_star`, `rosenbrock_chain`, `rastrigin` to the all-ones vector
of length `d`; in particular `optimal_solution(3)['rosenbrock_chain']`
is `[1,1,1]` and `optimal_solution(0)['sphere']` is `[]`. -/
theorem optimal_solution_table :
    (∀ dimension : Nat,
      dictGet "sphere" (optimal_solution dimension)
          = some (List.replicate dimension 0)
      ∧ dictGet "ellipsoid" (optimal_solution dimension)
          = some (List.replicate dimension 0)
      ∧ dictGet "k_tablet" (optimal_solution dimension)
          = some (List.replicate dimension 0)
      ∧ dictGet "rosenbrock_star" (optimal_solution dimension)
          = some (List.replicate dimension 1)
      ∧ dictGet "rosenbrock_chain" (optimal_solution dimension)
          = some (List.replicate dimension 1)
      ∧ dictGet "bohachevsky" (optimal_solution dimension)
          = some (List.replicate dimension 0)
      ∧ dictGet "ackley" (optimal_solution dimension)
          = some (List.replicate dimension 0)
      ∧ dictGet "schaffer" (optimal_solution dimension)
          = some (List.replicate dimension 0)
      ∧ dictGet "rastrigin" (optimal_solution dimension)
          = some (List.replicate dimension 1))
    ∧ dictGet "rosenbrock_chain" (optimal_solution 3) = some [1, 1, 1]
    ∧ dictGet "sphere" (optimal_solution 0) = some [] :=
  ⟨fun _ => ⟨rfl, rfl, rfl, rfl, rfl, rfl, rfl, rfl, rfl⟩, rfl, rfl⟩

/-- C7: for every rank-2 batch `(n, m)`, `sphere` returns per row the sum
of the squares of that row's components; in particular
`sphere([[0,0]]) == [0]` and `sphere([[1,1]]) == [2]`. -/
theorem sphere_sum_of_squares :
    (∀ (n m : Nat) (d : List ℝ), d.length = n * m →
      sphere ⟨[n, m], d⟩ = .ok ((chunk m n d).map (fun r =>
        ∑ i in Finset.range m, (r.getD i 0) ^ 2)))
    ∧ sphere ⟨[1, 2], [0, 0]⟩ = .ok [0]
    ∧ sphere ⟨[1, 2], [1, 1]⟩ = .ok [2] := by
  refine ⟨fun n m d hd => ?_, ?_, ?_⟩
  · rw [sphere_rows]
    refine congrArg Except.ok (List.map_congr_left (fun r hr => ?_))
    rw [sum_map_getD, length_of_mem_chunk hd hr]
  · rw [sphere_rows]
    norm_num [chunk]
  · rw [sphere_rows]
    norm_num [chunk]

theorem sphere_sum_of_squares_witness :
    sphere ⟨[1, 2], ([0, 0] : List ℝ)⟩
      = .ok ((chunk 2 1 [0, 0]).map (fun r =>
          ∑ i in Finset.range 2, (r.getD i 0) ^ 2)) :=
  sphere_sum_of_squares.1 1 2 [0, 0] rfl

/-- C4: for every rank-2 batch `(n, m)`, `rastrigin` returns per row
`10m + Σ_i [(x_i−1)² − 10cos(2π(x_i−1))]`; consequently the all-ones row
evaluates to `0`, e.g. `rastrigin([[1,1]]) == [0]`. -/
theorem rastrigin_formula :
    (∀ (n m : Nat) (d : List ℝ), d.length = n * m →
      rastrigin ⟨[n, m], d⟩ = .ok ((chunk m n d).map (fun r =>
        10 * (m : ℝ) + ∑ i in Finset.range m,
          ((r.getD i 0 - 1) ^ 2
            - 10 * Real.cos (2 * Real.pi * (r.getD i 0 - 1))))))
    ∧ rastrigin ⟨[1, 2], [1, 1]⟩ = .ok [0] := by
  refine ⟨fun n m d hd => ?_, ?_⟩
  · rw [rastrigin_rows]
    refine congrArg Except.ok (List.map_congr_left (fun r hr => ?_))
    rw [sum_map_getD, length_of_mem_chunk hd hr]
  · rw [rastrigin_rows]
    norm_num [chunk, Real.cos_zero]

theorem rastrigin_formula_witness :
    rastrigin ⟨[1, 2], ([1, 1] : List ℝ)⟩
      = .ok ((chunk 2 1 [1, 1]).map (fun r =>
          10 * ((2 : Nat) : ℝ) + ∑ i in Finset.range 2,
            ((r.getD i 0 - 1) ^ 2
              - 10 * Real.cos (2 * Real.pi * (r.getD i 0 - 1))))) :=
  rastrigin_formula.1 1 2 [1, 1] rfl

/-- C3: for every rank-2 batch `(n, m)` with `m ≥ 1`, `k_tablet` returns
per row `Σ_{i<k} x_i² + Σ_{i≥k} (100·x_i)²` with `k = ⌈m/4⌉`; in
particular for `m = 4` (so `k = 1`) the row `[1,1,1,1]` yields `30001`. -/
theorem k_tablet_formula :
    (∀ (n m : Nat) (d : List ℝ), 1 ≤ m → d.length = n * m →
      k_tablet ⟨[n, m], d⟩ = .ok ((chunk m n d).map (fun r =>
        ∑ i in Finset.range m,
          if i < ⌈(m : ℚ) / 4⌉₊ then (r.getD i 0) ^ 2
          else (100 * r.getD i 0) ^ 2)))
    ∧ k_tablet ⟨[1, 4], [1, 1, 1, 1]⟩ = .ok [30001] := by
  constructor
  · intro n m d _ hd
    rw [k_tablet_rows]
    refine congrArg Except.ok (List.map_congr_left (fun r hr => ?_))
    have hrm : r.length = m := length_of_mem_chunk hd hr
    have hkm : ⌈(m : ℚ) / 4⌉₊ ≤ m := by
      refine Nat.ceil_le.mpr ?_
      exact div_le_self (by positivity) (by norm_num)
    have h1 : ((r.take ⌈(m : ℚ) / 4⌉₊).map (fun v => v ^ 2)).sum
        = ∑ i in Finset.range ⌈(m : ℚ) / 4⌉₊, (r.getD i 0) ^ 2 := by
      rw [sum_map_getD, List.length_take, hrm, Nat.min_def, if_pos hkm]
      exact Finset.sum_congr rfl (fun i hi => by
        rw [getD_take _ _ (Finset.mem_range.mp hi)])
    have h2 : ((r.drop ⌈(m : ℚ) / 4⌉₊).map (fun v => (100 * v) ^ 2)).sum
        = ∑ i in Finset.range (m - ⌈(m : ℚ) / 4⌉₊),
            (100 * r.getD (⌈(m : ℚ) / 4⌉₊ + i) 0) ^ 2 := by
      rw [sum_map_getD, List.length_drop, hrm]
      exact Finset.sum_congr rfl (fun i _ => by rw [getD_drop])
    have h3 : (∑ i in Finset.range m,
          if i < ⌈(m : ℚ) / 4⌉₊ then (r.getD i 0) ^ 2
          else (100 * r.getD i 0) ^ 2)
        = (∑ i in Finset.Ico 0 ⌈(m : ℚ) / 4⌉₊,
            if i < ⌈(m : ℚ) / 4⌉₊ then (r.getD i 0) ^ 2
            else (100 * r.getD i 0) ^ 2)
          + ∑ i in Finset.Ico ⌈(m : ℚ) / 4⌉₊ m,
              if i < ⌈(m : ℚ) / 4⌉₊ then (r.getD i 0) ^ 2
              else (100 * r.getD i 0) ^ 2 := by
      rw [Finset.range_eq_Ico]
      exact (Finset.sum_Ico_consecutive _ (Nat.zero_le _) hkm).symm
    have h4 : (∑ i in Finset.Ico 0 ⌈(m : ℚ) / 4⌉₊,
          if i < ⌈(m : ℚ) / 4⌉₊ then (r.getD i 0) ^ 2
          else (100 * r.getD i 0) ^ 2)
        = ∑ i in Finset.range ⌈(m : ℚ) / 4⌉₊, (r.getD i 0) ^ 2 := by
      rw [← Finset.range_eq_Ico]
      exact Finset.sum_congr rfl
        (fun i hi => if_pos (Finset.mem_range.mp hi))
    have h5 : (∑ i in Finset.Ico ⌈(m : ℚ) / 4⌉₊ m,
          if i < ⌈(m : ℚ) / 4⌉₊ then (r.getD i 0) ^ 2
          else (100 * r.getD i 0) ^ 2)
        = ∑ i in Finset.range (m - ⌈(m : ℚ) / 4⌉₊),
            (100 * r.getD (⌈(m : ℚ) / 4⌉₊ + i) 0) ^ 2 := by
      rw [Finset.sum_Ico_eq_sum_range]
      exact Finset.sum_congr rfl (fun i _ => if_neg (by omega))
    rw [h1, h2, h3, h4, h5]
  · rw [k_tablet_rows]
    have hk4 : ⌈((4 : Nat) : ℚ) / 4⌉₊ = 1 := by norm_num
    rw [hk4]
    norm_num [chunk]

theorem k_tablet_formula_witness :
    k_tablet ⟨[1, 4], ([1, 1, 1, 1] : List ℝ)⟩
      = .ok ((chunk 4 1 [1, 1, 1, 1]).map (fun r =>
          ∑ i in Finset.range 4,
            if i < ⌈((4 : Nat) : ℚ) / 4⌉₊ then (r.getD i 0) ^ 2
            else (100 * r.getD i 0) ^ 2)) :=
  k_tablet_formula.1 1 4 [1, 1, 1, 1] (by norm_num) rfl

/-- C6: for every rank-2 batch `(n, m)` with `m ≥ 2`, `rosenbrock_star`
returns per row `Σ_{i=1}^{m-1} [100(x_0 − x_i²)² + (1 − x_i)²]`: every
non-first axis is coupled to axis 0, not to its neighbor. -/
theorem rosenbrock_star_formula :
    ∀ (n m : Nat) (d : List ℝ), 2 ≤ m → d.length = n * m →
      rosenbrock_star ⟨[n, m], d⟩ = .ok ((chunk m n d).map (fun r =>
        ∑ i in Finset.Ico 1 m,
          (100 * (r.getD 0 0 - (r.getD i 0) ^ 2) ^ 2
            + (1 - r.getD i 0) ^ 2))) := by
  intro n m d _ hd
  rw [rosenbrock_star_rows]
  refine congrArg Except.ok (List.map_congr_left (fun r hr => ?_))
  have hrm : r.length = m := length_of_mem_chunk hd hr
  rw [sum_map_getD, List.length_drop, hrm, headD_eq_getD,
    Finset.sum_Ico_eq_sum_range]
  exact Finset.sum_congr rfl (fun i _ => by rw [getD_drop])

theorem rosenbrock_star_formula_witness :
    rosenbrock_star ⟨[1, 2], ([1, 1] : List ℝ)⟩
      = .ok ((chunk 2 1 [1, 1]).map (fun r =>
          ∑ i in Finset.Ico 1 2,
            (100 * (r.getD 0 0 - (r.getD i 0) ^ 2) ^ 2
              + (1 - r.getD i 0) ^ 2))) :=
  rosenbrock_star_formula 1 2 [1, 1] (by norm_num) rfl

/-- C5: for every rank-2 batch `(n, m)` with `m ≥ 1`, `ackley` returns per
row the scalar `20 − 20·exp(−0.2·√(Σx_i²/m)) + e − exp(Σcos(2πx_i)/m)`,
where `e` is Euler's number and both sums range over all `m` axes of the
row. -/
theorem ackley_formula :
    ∀ (n m : Nat) (d : List ℝ), 1 ≤ m → d.length = n * m →
      ackley ⟨[n, m], d⟩ = .ok ((chunk m n d).map (fun r =>
        20 - 20 * Real.exp (-0.2
            * Real.sqrt ((∑ i in Finset.range m, (r.getD i 0) ^ 2) / m))
        + Real.exp 1
        - Real.exp ((∑ i in Finset.range m,
            Real.cos (2 * Real.pi * (r.getD i 0))) / m))) := by
  intro n m d _ hd
  rw [ackley_rows]
  refine congrArg Except.ok (List.map_congr_left (fun r hr => ?_))
  have hrm : r.length = m := length_of_mem_chunk hd hr
  rw [sum_map_getD, sum_map_getD, hrm, Real.sqrt_eq_rpow]
  norm_num

theorem ackley_formula_witness :
    ackley ⟨[1, 1], ([0] : List ℝ)⟩
      = .ok ((chunk 1 1 [0]).map (fun r =>
          20 - 20 * Real.exp (-0.2
              * Real.sqrt ((∑ i in Finset.range 1, (r.getD i 0) ^ 2) / (1 : Nat)))
          + Real.exp 1
          - Real.exp ((∑ i in Finset.range 1,
              Real.cos (2 * Real.pi * (r.getD i 0))) / (1 : Nat)))) :=
  ackley_formula 1 1 [0] (by norm_num) rfl

theorem map_ok_eq (a : α) (f : α → β) :
    (Except.ok a : Except ε α).map f = .ok (f a) := rfl

theorem map_error_eq (e : ε) (f : α → β) :
    (Except.error e : Except ε α).map f = .error e := rfl

theorem drop_one_of_short {r : List α} (h : r.length ≤ 1) :
    r.drop 1 = [] := by
  cases r with
  | nil => rfl
  | cons a t =>
    have ht : t.length = 0 := by
      simp only [List.length_cons] at h
      omega
    rw [List.drop_succ_cons, List.drop_zero]
    exact List.eq_nil_of_length_eq_zero ht

/-- C10: for every rank-2 batch with exactly one column (`m = 1`),
`rosenbrock_star`, `rosenbrock_chain`, `bohachevsky` and `schaffer` raise
no error: each returns the all-zero vector of length `n`, because the
neighbor-pair sum of every row is empty. -/
theorem single_column_zeros :
    ∀ (n : Nat) (d : List ℝ),
      rosenbrock_star ⟨[n, 1], d⟩ = .ok (List.replicate n 0)
      ∧ rosenbrock_chain ⟨[n, 1], d⟩ = .ok (List.replicate n 0)
      ∧ bohachevsky ⟨[n, 1], d⟩ = .ok (List.replicate n 0)
      ∧ schaffer ⟨[n, 1], d⟩ = .ok (List.replicate n 0) := by
  intro n d
  refine ⟨?_, ?_, ?_, ?_⟩
  · rw [rosenbrock_star_rows]
    refine congrArg Except.ok (List.eq_replicate_iff.mpr ⟨?_, ?_⟩)
    · rw [List.length_map, chunk_length]
    · intro b hb
      obtain ⟨r, hr, hfr⟩ := List.mem_map.mp hb
      rw [← hfr, drop_one_of_short (length_mem_chunk_le hr)]
      simp
  · rw [rosenbrock_chain_rows]
    refine congrArg Except.ok (List.eq_replicate_iff.mpr ⟨?_, ?_⟩)
    · rw [List.length_map, chunk_length]
    · intro b hb
      obtain ⟨r, hr, hfr⟩ := List.mem_map.mp hb
      rw [← hfr, drop_one_of_short (length_mem_chunk_le hr)]
      simp
  · rw [bohachevsky_rows]
    refine congrArg Except.ok (List.eq_replicate_iff.mpr ⟨?_, ?_⟩)
    · rw [List.length_map, chunk_length]
    · intro b hb
      obtain ⟨r, hr, hfr⟩ := List.mem_map.mp hb
      rw [← hfr, drop_one_of_short (length_mem_chunk_le hr)]
      simp
  · rw [schaffer_rows]
    refine congrArg Except.ok (List.eq_replicate_iff.mpr ⟨?_, ?_⟩)
    · rw [List.length_map, chunk_length]
    · intro b hb
      obtain ⟨r, hr, hfr⟩ := List.mem_map.mp hb
      rw [← hfr, drop_one_of_short (length_mem_chunk_le hr)]
      simp

/-- C1: every input value whose array has a rank other than 2 makes every
one of the nine benchmark operations raise the shape exception with the
exact reshape-guidance message, propagated unrecovered to the caller; on
every rank-2 input none of the nine operations raises that shape
exception. -/
theorem shape_error_all :
    ∀ x : PyArray ℝ,
      (x.shape.length ≠ 2 →
        sphere x = .error (.shapeError shapeErrorMsg)
        ∧ ellipsoid x = .error (.shapeError shapeErrorMsg)
        ∧ k_tablet x = .error (.shapeError shapeErrorMsg)
        ∧ rosenbrock_star x = .error (.shapeError shapeErrorMsg)
        ∧ rosenbrock_chain x = .error (.shapeError shapeErrorMsg)
        ∧ bohachevsky x = .error (.shapeError shapeErrorMsg)
        ∧ ackley x = .error (.shapeError shapeErrorMsg)
        ∧ schaffer x = .error (.shapeError shapeErrorMsg)
        ∧ rastrigin x = .error (.shapeError shapeErrorMsg))
      ∧ (x.shape.length = 2 →
        (∀ s, sphere x ≠ .error (.shapeError s))
        ∧ (∀ s, ellipsoid x ≠ .error (.shapeError s))
        ∧ (∀ s, k_tablet x ≠ .error (.shapeError s))
        ∧ (∀ s, rosenbrock_star x ≠ .error (.shapeError s))
        ∧ (∀ s, rosenbrock_chain x ≠ .error (.shapeError s))
        ∧ (∀ s, bohachevsky x ≠ .error (.shapeError s))
        ∧ (∀ s, ackley x ≠ .error (.shapeError s))
        ∧ (∀ s, schaffer x ≠ .error (.shapeError s))
        ∧ (∀ s, rastrigin x ≠ .error (.shapeError s))) := by
  intro x
  obtain ⟨shape, data⟩ := x
  constructor
  · intro h
    have hc : check ⟨shape, data⟩ = .error (.shapeError shapeErrorMsg) := by
      rw [check, if_neg h]
    refine ⟨?_, ?_, ?_, ?_, ?_, ?_, ?_, ?_, ?_⟩ <;>
      simp [sphere, ellipsoid, k_tablet, rosenbrock_star, rosenbrock_chain,
        bohachevsky, ackley, schaffer, rastrigin, hc, bind_error_eq]
  · intro h
    rcases shape with _ | ⟨n, _ | ⟨m, _ | ⟨k, t⟩⟩⟩
    · simp at h
    · simp at h
    · refine ⟨?_, ?_, ?_, ?_, ?_, ?_, ?_, ?_, ?_⟩
      · intro s hcon
        rw [sphere_rows] at hcon
        exact Except.noConfusion hcon
      · intro s hcon
        rw [ellipsoid_rows] at hcon
        cases hce : ellipsoidCoef m with
        | ok coef =>
          rw [hce, map_ok_eq] at hcon
          exact Except.noConfusion hcon
        | error e =>
          rw [hce, map_error_eq] at hcon
          have h2 : e = PyError.shapeError s := Except.error.inj hcon
          rw [ellipsoidCoef_error hce] at h2
          exact PyError.noConfusion h2
      · intro s hcon
        rw [k_tablet_rows] at hcon
        exact Except.noConfusion hcon
      · intro s hcon
        rw [rosenbrock_star_rows] at hcon
        exact Except.noConfusion hcon
      · intro s hcon
        rw [rosenbrock_chain_rows] at hcon
        exact Except.noConfusion hcon
      · intro s hcon
        rw [bohachevsky_rows] at hcon
        exact Except.noConfusion hcon
      · intro s hcon
        rw [ackley_rows] at hcon
        exact Except.noConfusion hcon
      · intro s hcon
        rw [schaffer_rows] at hcon
        exact Except.noConfusion hcon
      · intro s hcon
        rw [rastrigin_rows] at hcon
        exact Except.noConfusion hcon
    · simp at h

theorem shape_error_all_witness :
    sphere ⟨[3], ([1, 2, 3] : List ℝ)⟩ = .error (.shapeError shapeErrorMsg)
    ∧ ∀ s, sphere ⟨[1, 1], ([0] : List ℝ)⟩ ≠ .error (.shapeError s) :=
  ⟨((shape_error_all ⟨[3], [1, 2, 3]⟩).1 (by decide)).1,
   ((shape_error_all ⟨[1, 1], [0]⟩).2 rfl).1⟩

/-- C2: for every benchmark function and every pair of rank-2 batches
`A : (n₁, m)` and `B : (n₂, m)`, evaluating on the vertical stacking of
`A` and `B` yields the concatenation of the two separate evaluations —
row `i` of the output depends only on row `i` of the input. -/
theorem batch_invariance :
    ∀ (m n₁ n₂ : Nat) (d₁ d₂ : List ℝ),
      d₁.length = n₁ * m → d₂.length = n₂ * m →
      (∀ u v, sphere ⟨[n₁, m], d₁⟩ = .ok u →
        sphere ⟨[n₂, m], d₂⟩ = .ok v →
        sphere ⟨[n₁ + n₂, m], d₁ ++ d₂⟩ = .ok (u ++ v))
      ∧ (∀ u v, ellipsoid ⟨[n₁, m], d₁⟩ = .ok u →
        ellipsoid ⟨[n₂, m], d₂⟩ = .ok v →
        ellipsoid ⟨[n₁ + n₂, m], d₁ ++ d₂⟩ = .ok (u ++ v))
      ∧ (∀ u v, k_tablet ⟨[n₁, m], d₁⟩ = .ok u →
        k_tablet ⟨[n₂, m], d₂⟩ = .ok v →
        k_tablet ⟨[n₁ + n₂, m], d₁ ++ d₂⟩ = .ok (u ++ v))
      ∧ (∀ u v, rosenbrock_star ⟨[n₁, m], d₁⟩ = .ok u →
        rosenbrock_star ⟨[n₂, m], d₂⟩ = .ok v →
        rosenbrock_star ⟨[n₁ + n₂, m], d₁ ++ d₂⟩ = .ok (u ++ v))
      ∧ (∀ u v, rosenbrock_chain ⟨[n₁, m], d₁⟩ = .ok u →
        rosenbrock_chain ⟨[n₂, m], d₂⟩ = .ok v →
        rosenbrock_chain ⟨[n₁ + n₂, m], d₁ ++ d₂⟩ = .ok (u ++ v))
      ∧ (∀ u v, bohachevsky ⟨[n₁, m], d₁⟩ = .ok u →
        bohachevsky ⟨[n₂, m], d₂⟩ = .ok v →
        bohachevsky ⟨[n₁ + n₂, m], d₁ ++ d₂⟩ = .ok (u ++ v))
      ∧ (∀ u v, ackley ⟨[n₁, m], d₁⟩ = .ok u →
        ackley ⟨[n₂, m], d₂⟩ = .ok v →
        ackley ⟨[n₁ + n₂, m], d₁ ++ d₂⟩ = .ok (u ++ v))
      ∧ (∀ u v, schaffer ⟨[n₁, m], d₁⟩ = .ok u →
        schaffer ⟨[n₂, m], d₂⟩ = .ok v →
        schaffer ⟨[n₁ + n₂, m], d₁ ++ d₂⟩ = .ok (u ++ v))
      ∧ (∀ u v, rastrigin ⟨[n₁, m], d₁⟩ = .ok u →
        rastrigin ⟨[n₂, m], d₂⟩ = .ok v →
        rastrigin ⟨[n₁ + n₂, m], d₁ ++ d₂⟩ = .ok (u ++ v)) := by
  intro m n₁ n₂ d₁ d₂ hd₁ _
  refine ⟨?_, ?_, ?_, ?_, ?_, ?_, ?_, ?_, ?_⟩
  · intro u v h1 h2
    rw [sphere_rows] at h1 h2
    rw [sphere_rows, rows_fn_append n₂ d₂ hd₁,
      Except.ok.inj h1, Except.ok.inj h2]
  · intro u v h1 h2
    rw [ellipsoid_rows] at h1 h2
    rw [ellipsoid_rows]
    cases hce : ellipsoidCoef m with
    | error e =>
      rw [hce, map_error_eq] at h1
      exact Except.noConfusion h1
    | ok coef =>
      rw [hce, map_ok_eq] at h1 h2
      rw [map_ok_eq, rows_fn_append n₂ d₂ hd₁,
        Except.ok.inj h1, Except.ok.inj h2]
  · intro u v h1 h2
    rw [k_tablet_rows] at h1 h2
    rw [k_tablet_rows, rows_fn_append n₂ d₂ hd₁,
      Except.ok.inj h1, Except.ok.inj h2]
  · intro u v h1 h2
    rw [rosenbrock_star_rows] at h1 h2
    rw [rosenbrock_star_rows, rows_fn_append n₂ d₂ hd₁,
      Except.ok.inj h1, Except.ok.inj h2]
  · intro u v h1 h2
    rw [rosenbrock_chain_rows] at h1 h2
    rw [rosenbrock_chain_rows, rows_fn_append n₂ d₂ hd₁,
      Except.ok.inj h1, Except.ok.inj h2]
  · intro u v h1 h2
    rw [bohachevsky_rows] at h1 h2
    rw [bohachevsky_rows, rows_fn_append n₂ d₂ hd₁,
      Except.ok.inj h1, Except.ok.inj h2]
  · intro u v h1 h2
    rw [ackley_rows] at h1 h2
    rw [ackley_rows, rows_fn_append n₂ d₂ hd₁,
      Except.ok.inj h1, Except.ok.inj h2]
  · intro u v h1 h2
    rw [schaffer_rows] at h1 h2
    rw [schaffer_rows, rows_fn_append n₂ d₂ hd₁,
      Except.ok.inj h1, Except.ok.inj h2]
  · intro u v h1 h2
    rw [rastrigin_rows] at h1 h2
    rw [rastrigin_rows, rows_fn_append n₂ d₂ hd₁,
      Except.ok.inj h1, Except.ok.inj h2]

theorem batch_invariance_witness :
    sphere ⟨[1 + 1, 1], ([1] ++ [2] : List ℝ)⟩ = .ok ([1] ++ [4]) :=
  (batch_invariance 1 1 1 [1] [2] rfl rfl).1 [1] [4]
    (by rw [sphere_rows]; norm_num [chunk])
    (by rw [sphere_rows]; norm_num [chunk])
